import Mathlib

/-!
# Verification of the PARA InfoSystem core (PIM_project)

Shallow embedding of the token/session manager (`api/auth.py`), the tag
validation and serialization logic (`api/models.py`, `api/services.py`) and the
particle repository operations (`api/services.py`), together with proofs of the
behavioural properties the specification states about them.

Modelling conventions:
* Python `str` values that are inspected character by character (tags) are
  modelled as `List Char` (`PyStr`); other strings stay Lean `String`s.
* ISO-8601 timestamp strings compare lexicographically in the same order as the
  instants they denote, so timestamps are modelled as `Nat`; wall-clock time in
  the token manager is an `Int` (Python uses a float epoch clock).
* The SQLite `particles` table is a `List ParticleRow`; a SQL `WHERE` clause is
  a `List.filter`, an `UPDATE` is a `List.map`, a `DELETE` is a `List.filter`
  with the negated condition, `ORDER BY created DESC` is an insertion sort.
* The in-memory token dict is an association list with Python dict semantics
  (assignment replaces in place, `del` removes the key); Python guarantees the
  keys of a dict are pairwise distinct, which appears as a `Nodup` hypothesis
  where it matters.
* Exceptions become `Except String`; a raised `ServiceError`/`DatabaseError`
  is an `Except.error` carrying the exception message.
-/

namespace PIM

/-! ## Character-level strings (tags) -/

/-- A Python `str` viewed as its characters. -/
abbrev PyStr := List Char

/-- The characters removed by Python `str.strip()` (ASCII whitespace). -/
def isPySpace (c : Char) : Bool :=
  c == ' ' || c == '\t' || c == '\n' || c == '\r' ||
  c == Char.ofNat 11 || c == Char.ofNat 12

/-- Python `str.strip()`: drop whitespace from both ends. -/
def pyStrip (s : PyStr) : PyStr :=
  ((s.dropWhile isPySpace).reverse.dropWhile isPySpace).reverse

/-- The character class of the tag regex `^[a-zA-Z0-9_-]+$` in
`ParticleCreate.validate_tags` (`api/models.py`). -/
def isTagChar (c : Char) : Bool :=
  ('a' ≤ c && c ≤ 'z') || ('A' ≤ c && c ≤ 'Z') ||
  ('0' ≤ c && c ≤ '9') || c == '_' || c == '-'

/-- Python `str.lower()` on one ASCII character. -/
def pyLowerChar (c : Char) : Char :=
  if 'A' ≤ c && c ≤ 'Z' then Char.ofNat (c.toNat + 32) else c

/-- Python `str.lower()` on a tag. -/
def pyLower (s : PyStr) : PyStr := s.map pyLowerChar

/-! ## Configuration (`api/config.py`, class `Settings`) -/

def max_tag_length : Nat := 50
def max_tags_per_particle : Nat := 10

/-! ## Tag validation (`api/models.py`, `ParticleCreate.validate_tags`) -/

/-- The `for tag in v` loop of `validate_tags`: strip each tag, skip the ones
that become empty, raise on a tag that is too long or fails the charset regex
(length is checked first), and collect the survivors in order. -/
def cleanTagsLoop : List PyStr → Except String (List PyStr)
  | [] => .ok []
  | t :: ts =>
    let t1 := pyStrip t
    if t1 = [] then cleanTagsLoop ts
    else if t1.length > max_tag_length then
      .error ("Tag \"" ++ String.mk t1 ++ "\" exceeds 50 character limit")
    else if !(t1.all isTagChar) then
      .error ("Tag \"" ++ String.mk t1 ++ "\" contains invalid characters. Use only letters, numbers, underscores, and hyphens")
    else do
      let rest ← cleanTagsLoop ts
      pure (t1 :: rest)

/-- The dedup loop of `validate_tags`: drop a tag whose lowercase form was
already seen, keeping the first occurrence's casing and the relative order. -/
def dedupCaseInsensitive (seen : List PyStr) : List PyStr → List PyStr
  | [] => []
  | t :: ts =>
    if pyLower t ∈ seen then dedupCaseInsensitive seen ts
    else t :: dedupCaseInsensitive (pyLower t :: seen) ts

/-- Embedding of `ParticleCreate.validate_tags` (`api/models.py` lines 96-121): early return
`[]` on a falsy list, otherwise clean every tag and deduplicate. -/
def validate_tags (v : List PyStr) : Except String (List PyStr) :=
  if v = [] then .ok []
  else (cleanTagsLoop v).map (dedupCaseInsensitive [])

/-- The full pydantic pipeline for the `tags` field of `ParticleCreate`
(`api/models.py` lines 86-90 and 96-121): the validator is not `pre`, so the
`max_items` field constraint is checked on the raw input list before the
`validate_tags` validator runs. -/
def tags_field_validate (v : List PyStr) : Except String (List PyStr) :=
  if v.length > max_tags_per_particle then
    .error "ensure this value has at most 10 items"
  else validate_tags v

/-- The full pydantic pipeline for the `tags` field of `ParticleUpdate`
(`api/models.py` lines 147-158): the validator is declared
`@validator('tags', pre=True)`, and pydantic runs pre-validators before the
standard field validation, so here `max_items` is checked on the cleaned,
already-deduplicated output of `validate_tags` (a present, non-`None` tags
value; `None` passes through untouched). -/
def update_tags_field_validate (v : List PyStr) : Except String (List PyStr) :=
  match validate_tags v with
  | .error e => .error e
  | .ok cleaned =>
    if cleaned.length > max_tags_per_particle then
      .error "ensure this value has at most 10 items"
    else .ok cleaned

/-- Modelled from the spec's tag-normalization paragraph, written
compositionally (map/filter/find) rather than as the source's loop: enforce the
count limit on the raw input, trim every tag, drop the empties, reject on the
first remaining tag that is too long or outside the charset, then deduplicate
case-insensitively keeping first occurrences. Used only to compare with the
source-derived `tags_field_validate`. -/
def specTagNormalization (v : List PyStr) : Except String (List PyStr) :=
  if v.length > max_tags_per_particle then
    .error "ensure this value has at most 10 items"
  else
    let trimmed := (v.map pyStrip).filter (fun t => t ≠ [])
    match trimmed.find? (fun t => t.length > max_tag_length || !(t.all isTagChar)) with
    | some bad =>
      if bad.length > max_tag_length then
        .error ("Tag \"" ++ String.mk bad ++ "\" exceeds 50 character limit")
      else
        .error ("Tag \"" ++ String.mk bad ++ "\" contains invalid characters. Use only letters, numbers, underscores, and hyphens")
    | none => .ok (dedupCaseInsensitive [] trimmed)

/-- Modelled from the spec's tag-normalization paragraph with the count limit
applied to the normalized (post-dedup) list instead of the raw input, the
variant the update path exhibits.  Used only to compare with the
source-derived `update_tags_field_validate`. -/
def specTagNormalizationUpdate (v : List PyStr) : Except String (List PyStr) :=
  let trimmed := (v.map pyStrip).filter (fun t => t ≠ [])
  match trimmed.find? (fun t => t.length > max_tag_length || !(t.all isTagChar)) with
  | some bad =>
    if bad.length > max_tag_length then
      .error ("Tag \"" ++ String.mk bad ++ "\" exceeds 50 character limit")
    else
      .error ("Tag \"" ++ String.mk bad ++ "\" contains invalid characters. Use only letters, numbers, underscores, and hyphens")
  | none =>
    let out := dedupCaseInsensitive [] trimmed
    if out.length > max_tags_per_particle then
      .error "ensure this value has at most 10 items"
    else .ok out

/-! ## Tag serialization (`api/services.py` lines 178, 238, 352) -/

/-- Python `','.join(tags)`. -/
def joinWithComma : List PyStr → PyStr
  | [] => []
  | [t] => t
  | t :: ts => t ++ ',' :: joinWithComma ts

/-- Embedding of `','.join(particle_data.tags) if particle_data.tags else ''`
(`create_particle`, `api/services.py` line 178). -/
def joinTags (ts : List PyStr) : PyStr :=
  if ts = [] then [] else joinWithComma ts

/-- Helper for Python `str.split(',')`: accumulate the current field
(reversed) and cut at every comma. -/
def splitAux (cur : PyStr) : PyStr → List PyStr
  | [] => [cur.reverse]
  | c :: rest =>
    if c = ',' then cur.reverse :: splitAux [] rest
    else splitAux (c :: cur) rest

/-- Python `s.split(',')`. -/
def splitOnComma (s : PyStr) : List PyStr := splitAux [] s

/-- Embedding of `particle[3].split(',') if particle[3] else []`
(`get_particle_by_id`, `api/services.py` line 238). -/
def parseTags (s : PyStr) : List PyStr :=
  if s = [] then [] else splitOnComma s

/-! ## Token manager (`api/auth.py`, class `TokenManager`)

The module-level `tokens` dict maps a token string to
`{"username": ..., "created": ..., "last_used": ...}`.  The `created` entry is
optional because `is_token_expired` explicitly handles a record without one;
`username` and `last_used` are always written together on creation. -/

structure TokenRecord where
  username : String
  created : Option Int
  last_used : Int
deriving DecidableEq, Repr

/-- The `tokens` dict as an association list (keys pairwise distinct). -/
abbrev TokenTable := List (String × TokenRecord)

/-- Python `tokens.get(token)`: first binding of the key, if any. -/
def lookupTok (tbl : TokenTable) (t : String) : Option TokenRecord :=
  (tbl.find? (fun p => p.1 == t)).map (fun p => p.2)

/-- Python `tokens[token] = record`: replace the binding in place if the key is
present (Python dicts keep the position), append otherwise. -/
def setTok : TokenTable → String → TokenRecord → TokenTable
  | [], t, rec => [(t, rec)]
  | p :: rest, t, rec =>
    if p.1 == t then (t, rec) :: rest else p :: setTok rest t rec

/-- Python `del tokens[token]`. -/
def removeTok (tbl : TokenTable) (t : String) : TokenTable :=
  tbl.filter (fun p => !(p.1 == t))

/-- Embedding of `TokenManager.__init__`: stores `expire_hours` (default 24). -/
structure TokenManager where
  expire_hours : Nat
deriving DecidableEq, Repr

/-- Python `self.expire_seconds = expire_hours * 3600`. -/
def TokenManager.expire_seconds (tm : TokenManager) : Nat :=
  tm.expire_hours * 3600

/-- Embedding of `TokenManager.is_token_expired`: a record without a `created` timestamp is
expired; otherwise expired iff `now - created > expire_seconds`. -/
def is_token_expired (tm : TokenManager) (now : Int) (rec : TokenRecord) : Bool :=
  match rec.created with
  | none => true
  | some c => now - c > (tm.expire_seconds : Int)

/-- Embedding of `TokenManager.cleanup_expired_tokens`: delete every currently expired
record; returns the number removed and the new table. -/
def cleanup_expired_tokens (tm : TokenManager) (now : Int) (tbl : TokenTable) :
    Nat × TokenTable :=
  ((tbl.filter (fun p => is_token_expired tm now p.2)).length,
   tbl.filter (fun p => !is_token_expired tm now p.2))

/-- Embedding of `TokenManager.create_token`: store the (randomly generated, here given)
token with both timestamps set to now, then sweep expired entries. -/
def create_token (tm : TokenManager) (now : Int) (t : String) (u : String)
    (tbl : TokenTable) : String × TokenTable :=
  let tbl1 := setTok tbl t ⟨u, some now, now⟩
  (t, (cleanup_expired_tokens tm now tbl1).2)

/-- Embedding of `TokenManager.revoke_token`: delete the token if present; `true` iff it
was found. -/
def revoke_token (tbl : TokenTable) (t : String) : Bool × TokenTable :=
  if (lookupTok tbl t).isSome then (true, removeTok tbl t) else (false, tbl)

/-- Embedding of `TokenManager.validate_token`: absent token gives `None`; an expired token
is revoked and gives `None`; otherwise `last_used` is bumped and the username
returned. -/
def validate_token (tm : TokenManager) (now : Int) (tbl : TokenTable)
    (t : String) : Option String × TokenTable :=
  match lookupTok tbl t with
  | none => (none, tbl)
  | some rec =>
    if is_token_expired tm now rec then (none, (revoke_token tbl t).2)
    else (some rec.username, setTok tbl t { rec with last_used := now })

/-- Embedding of `TokenManager.revoke_user_tokens`: delete every token whose record's
username matches; return how many were deleted and the new table. -/
def revoke_user_tokens (tbl : TokenTable) (u : String) : Nat × TokenTable :=
  ((tbl.filter (fun p => p.2.username == u)).length,
   tbl.filter (fun p => !(p.2.username == u)))

/-- Embedding of `TokenManager.get_active_sessions`: count of non-expired records. -/
def get_active_sessions (tm : TokenManager) (now : Int) (tbl : TokenTable) : Nat :=
  (tbl.filter (fun p => !is_token_expired tm now p.2)).length

/-! ## Particle repository (`api/services.py`, class `ParticleService`)

A row of the SQLite `particles` table.  `tags` is the serialized
comma-joined column; `created`/`updated` are ISO-8601 strings modelled as
`Nat` (lexicographic order on such strings is chronological order). -/

structure ParticleRow where
  id : Nat
  title : String
  content : String
  tags : PyStr
  sect : String
  user : String
  created : Nat
  updated : Nat
deriving DecidableEq, Repr

abbrev DB := List ParticleRow

/-- The shape returned to callers (`ParticleResponse`, `api/models.py`), with
the tags column deserialized into a list. -/
structure ParticleResponse where
  id : Nat
  title : String
  content : String
  tags : List PyStr
  sect : String
  user : String
  created : Nat
  updated : Nat
deriving DecidableEq, Repr

/-- Construction of a `ParticleResponse` from a fetched row
(`api/services.py` lines 234-243): `tags = row.tags.split(',') if row.tags
else []`. -/
def rowToResponse (r : ParticleRow) : ParticleResponse :=
  { id := r.id, title := r.title, content := r.content,
    tags := parseTags r.tags, sect := r.sect, user := r.user,
    created := r.created, updated := r.updated }

/-- Embedding of `ParticleService.get_particle_by_id` (`api/services.py` lines 205-247):
`SELECT ... WHERE id = ? AND user = ?`; empty result set raises
`ServiceError("Particle not found or access denied")`. -/
def get_particle_by_id (db : DB) (pid : Nat) (u : String) :
    Except String ParticleResponse :=
  match db.filter (fun r => r.id == pid && r.user == u) with
  | [] => .error "Particle not found or access denied"
  | r :: _ => .ok (rowToResponse r)

/-- The WHERE clause built by `ParticleService.list_particles`
(`api/services.py` lines 272-291): always `user = ?`; `AND section = ?` only
when the section filter is truthy; `AND (title LIKE ? OR content LIKE ?)` only
when the search query is truthy (SQLite `LIKE` is ASCII case-insensitive). -/
def charsPrefixOf : List Char → List Char → Bool
  | [], _ => true
  | _ :: _, [] => false
  | a :: as, b :: bs => a == b && charsPrefixOf as bs

def charsInfixOf (needle : List Char) : List Char → Bool
  | [] => needle.isEmpty
  | c :: rest => charsPrefixOf needle (c :: rest) || charsInfixOf needle rest

def likeContains (q s : String) : Bool :=
  charsInfixOf (q.toList.map pyLowerChar) (s.toList.map pyLowerChar)

def matchesFilters (u : String) (sectionFilter searchQuery : Option String)
    (r : ParticleRow) : Bool :=
  r.user == u
  && (match sectionFilter with
      | none => true
      | some s => if s.isEmpty then true else r.sect == s)
  && (match searchQuery with
      | none => true
      | some q =>
        if q.isEmpty then true
        else likeContains q r.title || likeContains q r.content)

/-- SQL `ORDER BY created DESC`. -/
def createdDesc (a b : ParticleRow) : Prop := b.created ≤ a.created

instance : DecidableRel createdDesc := fun a b => by
  unfold createdDesc; infer_instance

instance : IsTotal ParticleRow createdDesc :=
  ⟨fun a b => Nat.le_total b.created a.created⟩

instance : IsTrans ParticleRow createdDesc :=
  ⟨fun _ _ _ h1 h2 => Nat.le_trans h2 h1⟩

/-- Embedding of `ParticleCreate` (`api/models.py`) as the service sees it:
title, content, validated tags, and section. -/
structure ParticleCreate where
  title : String
  content : String
  tags : List PyStr
  sect : String
deriving DecidableEq, Repr

/-- The id assigned by the `INSERT`'s `AUTOINCREMENT` primary key
(`cursor.lastrowid`): strictly larger than every id already in the table. -/
def nextId (db : DB) : Nat :=
  (db.map (fun r => r.id)).foldr max 0 + 1

/-- Embedding of `ParticleService.create_particle` (`api/services.py` lines
163-203): serialize the tags (`','.join(...) if ... else ''`), `INSERT` the
row with `created = updated = now`, then return the freshly stored particle
via `get_particle_by_id`. -/
def create_particle (db : DB) (pdata : ParticleCreate) (u : String)
    (now : Nat) : DB × Except String ParticleResponse :=
  let tags_str := joinTags pdata.tags
  let pid := nextId db
  let row : ParticleRow :=
    ⟨pid, pdata.title, pdata.content, tags_str, pdata.sect, u, now, now⟩
  let db1 := db ++ [row]
  (db1, get_particle_by_id db1 pid u)

/-- Embedding of `ParticleService.list_particles` (`api/services.py` lines 249-312):
filter, order newest-created first, apply `LIMIT ? OFFSET ?`, and build the
responses. -/
def list_particles (db : DB) (u : String)
    (sectionFilter searchQuery : Option String) (limit offset : Nat) :
    List ParticleResponse :=
  ((((db.filter (matchesFilters u sectionFilter searchQuery)).insertionSort
      createdDesc).drop offset).take limit).map rowToResponse

/-- Embedding of `ParticleUpdate` (`api/models.py`): every field optional, tags already
validated by the pydantic validator before the service sees them. -/
structure ParticleUpdate where
  title : Option String
  content : Option String
  tags : Option (List PyStr)
  sect : Option String
deriving DecidableEq, Repr

/-- The `SET` clause of `ParticleService.update_particle`: fields present in
the request overwrite the row, `updated` is set to now, `tags` is re-joined
with commas (`','.join(particle_data.tags)`, line 352). -/
def applyUpdate (pd : ParticleUpdate) (now : Nat) (r : ParticleRow) : ParticleRow :=
  { r with
    title := pd.title.getD r.title,
    content := pd.content.getD r.content,
    tags := match pd.tags with
            | none => r.tags
            | some ts => joinWithComma ts,
    sect := pd.sect.getD r.sect,
    updated := now }

/-- Embedding of `ParticleService.update_particle` (`api/services.py` lines 314-391).
First fetches the particle scoped by owner (raising the not-found error on a
miss); with no fields to update it returns the existing particle unchanged;
otherwise it runs the scoped `UPDATE` and re-fetches.  The `rowcount == 0`
branch raises a `ServiceError` inside the `get_db_session` block: the session
context manager converts it to a `DatabaseError`, which the method's
`except DatabaseError` handler re-raises as
`ServiceError("Failed to update particle")`. -/
def update_particle (db : DB) (pid : Nat) (pd : ParticleUpdate) (u : String)
    (now : Nat) : DB × Except String ParticleResponse :=
  match get_particle_by_id db pid u with
  | .error e => (db, .error e)
  | .ok existing =>
    if pd.title = none ∧ pd.content = none ∧ pd.tags = none ∧ pd.sect = none then
      (db, .ok existing)
    else
      let rowcount := (db.filter (fun r => r.id == pid && r.user == u)).length
      let db1 := db.map (fun r =>
        if r.id == pid && r.user == u then applyUpdate pd now r else r)
      if rowcount = 0 then (db1, .error "Failed to update particle")
      else (db1, get_particle_by_id db1 pid u)

/-- Embedding of `ParticleService.delete_particle` (`api/services.py` lines 393-428):
scoped `DELETE`.  The `rowcount == 0` branch raises a `ServiceError` inside
`get_db_session`, which converts it to a `DatabaseError`; the method's
`except DatabaseError` handler re-raises it as
`ServiceError("Failed to delete particle")` — the repository's own tests
(`test_delete_particle_not_found`, `test_delete_particle_different_user`)
assert exactly this message. -/
def delete_particle (db : DB) (pid : Nat) (u : String) :
    DB × Except String Bool :=
  let rowcount := (db.filter (fun r => r.id == pid && r.user == u)).length
  let db1 := db.filter (fun r => !(r.id == pid && r.user == u))
  if rowcount = 0 then (db1, .error "Failed to delete particle")
  else (db1, .ok true)

/-! ### Statistics (`ParticleService.get_particle_stats`, lines 430-469)

The Python code builds a dict preset with the four section keys and `total`
all zero, then for each `GROUP BY section` row does
`stats[row.section] = count; stats['total'] += count`.  The dict is modelled
as an association list with insertion-order semantics. -/

/-- Python dict assignment `d[k] = n`: replace the binding in place if the
key is present (keys are pairwise distinct), append otherwise. -/
def dictSet : List (String × Nat) → String → Nat → List (String × Nat)
  | [], k, n => [(k, n)]
  | p :: d, k, n => if p.1 == k then (k, n) :: d else p :: dictSet d k n

/-- Python dict read `d[k]` (0 when absent; reads here never miss). -/
def dictGetD (d : List (String × Nat)) (k : String) : Nat :=
  match d.find? (fun p => p.1 == k) with
  | some p => p.2
  | none => 0

/-- First-occurrence deduplication (distinct values in first-seen order),
used to model the `GROUP BY section` result set. -/
def dedupFirst : List String → List String
  | [] => []
  | s :: l => s :: dedupFirst (l.filter (fun x => !(x == s)))
termination_by l => l.length
decreasing_by
  simp only [List.length_cons]
  exact Nat.lt_succ_of_le (List.length_filter_le _ _)

/-- SQL `SELECT section, COUNT(*) ... WHERE user = ? GROUP BY section` applied to
the owner's rows: one pair per distinct section with its row count. -/
def groupBySection (rows : List ParticleRow) : List (String × Nat) :=
  (dedupFirst (rows.map (fun r => r.sect))).map
    (fun s => (s, (rows.filter (fun r => r.sect == s)).length))

/-- The preset stats dict. -/
def statsInit : List (String × Nat) :=
  [("Projects", 0), ("Areas", 0), ("Resources", 0), ("Archives", 0), ("total", 0)]

/-- The `for row in results` loop:
`stats[row.section] = count; stats['total'] += count`. -/
def statsFold : List (String × Nat) → List (String × Nat) → List (String × Nat)
  | d, [] => d
  | d, (s, c) :: rest =>
    let d1 := dictSet d s c
    statsFold (dictSet d1 "total" (dictGetD d1 "total" + c)) rest

/-- Embedding of `ParticleService.get_particle_stats`. -/
def get_particle_stats (db : DB) (u : String) : List (String × Nat) :=
  statsFold statsInit (groupBySection (db.filter (fun r => r.user == u)))

/-! ## Database-failure boundary (`api/services.py` `try`/`except` blocks)

`dbres` stands for the outcome of the operation's database access:
`.ok db` when the store answered, `.error e` when it raised
`DatabaseError(e)`.  Each wrapper embeds the method's `except DatabaseError`
handler. -/

/-- Boundary of `list_particles`: it swallows a `DatabaseError` and returns `[]`
(lines 310-312). -/
def list_particles_run (dbres : Except String DB) (u : String)
    (sectionFilter searchQuery : Option String) (limit offset : Nat) :
    Except String (List ParticleResponse) :=
  match dbres with
  | .error _ => .ok []
  | .ok db => .ok (list_particles db u sectionFilter searchQuery limit offset)

/-- Boundary of `get_particle_stats`: it swallows a `DatabaseError` and returns the
zero-filled dict (lines 467-469). -/
def get_particle_stats_run (dbres : Except String DB) (u : String) :
    Except String (List (String × Nat)) :=
  match dbres with
  | .error _ =>
    .ok [("Projects", 0), ("Areas", 0), ("Resources", 0), ("Archives", 0), ("total", 0)]
  | .ok db => .ok (get_particle_stats db u)

/-- Boundary of `create_particle`: it re-raises a `DatabaseError` as
`ServiceError("Failed to create particle")` (lines 201-203). -/
def create_particle_run (dbres : Except String DB) (pdata : ParticleCreate)
    (u : String) (now : Nat) : Except String ParticleResponse :=
  match dbres with
  | .error _ => .error "Failed to create particle"
  | .ok db => (create_particle db pdata u now).2

/-- Boundary of `get_particle_by_id`: it re-raises a `DatabaseError` as
`ServiceError("Failed to fetch particle")` (lines 245-247). -/
def get_particle_by_id_run (dbres : Except String DB) (pid : Nat) (u : String) :
    Except String ParticleResponse :=
  match dbres with
  | .error _ => .error "Failed to fetch particle"
  | .ok db => get_particle_by_id db pid u

/-- Boundary of `update_particle`: it re-raises a `DatabaseError` as
`ServiceError("Failed to update particle")` (lines 389-391). -/
def update_particle_run (dbres : Except String DB) (pid : Nat)
    (pd : ParticleUpdate) (u : String) (now : Nat) :
    Except String ParticleResponse :=
  match dbres with
  | .error _ => .error "Failed to update particle"
  | .ok db => (update_particle db pid pd u now).2

/-- Boundary of `delete_particle`: it re-raises a `DatabaseError` as
`ServiceError("Failed to delete particle")` (lines 426-428). -/
def delete_particle_run (dbres : Except String DB) (pid : Nat) (u : String) :
    Except String Bool :=
  match dbres with
  | .error _ => .error "Failed to delete particle"
  | .ok db => (delete_particle db pid u).2

/-- The four PARA sections (the `CHECK` constraint on `particles.section`,
`api/database.py`). -/
def paraSections : List String := ["Projects", "Areas", "Resources", "Archives"]

/-! ## Sample data used by witnesses and counterexamples -/

def aliceRow : ParticleRow := ⟨1, "T", "C", ['a'], "Projects", "alice", 5, 5⟩
def bobRow : ParticleRow := ⟨2, "U", "D", [], "Areas", "bob", 7, 7⟩
def aliceRow2 : ParticleRow := ⟨3, "V", "E", [], "Archives", "alice", 9, 9⟩
def dbA : DB := [aliceRow]
def dbAB : DB := [aliceRow, bobRow, aliceRow2]

/-! ## Lemmas: tag characters and serialization -/

theorem tagChar_ne_comma {c : Char} (h : isTagChar c = true) : c ≠ ',' := by
  intro hc
  subst hc
  simp [isTagChar] at h

theorem splitAux_append (t : PyStr) (h : ∀ c ∈ t, c ≠ ',') :
    ∀ (cur s : PyStr), splitAux cur (t ++ s) = splitAux (t.reverse ++ cur) s := by
  induction t with
  | nil => intro cur s; simp [splitAux]
  | cons c t ih =>
    intro cur s
    have hc : c ≠ ',' := h c (List.mem_cons_self c t)
    have ht : ∀ x ∈ t, x ≠ ',' := fun x hx => h x (List.mem_cons_of_mem c hx)
    simp only [List.cons_append, splitAux, if_neg hc, List.append_eq]
    rw [ih ht (c :: cur) s]
    simp

theorem splitOnComma_joinWithComma (ts : List PyStr) (hne : ts ≠ [])
    (h : ∀ t ∈ ts, ∀ c ∈ t, c ≠ ',') :
    splitOnComma (joinWithComma ts) = ts := by
  induction ts with
  | nil => exact absurd rfl hne
  | cons t rest ih =>
    cases rest with
    | nil =>
      have hcomma : ∀ c ∈ t, c ≠ ',' := h t (List.mem_cons_self t [])
      show splitAux [] (joinWithComma [t]) = [t]
      have : joinWithComma [t] = t ++ [] := by simp [joinWithComma]
      rw [this, splitAux_append t hcomma [] []]
      simp [splitAux]
    | cons t2 rest2 =>
      have hcomma : ∀ c ∈ t, c ≠ ',' := h t (List.mem_cons_self t _)
      have hrest : ∀ x ∈ t2 :: rest2, ∀ c ∈ x, c ≠ ',' :=
        fun x hx => h x (List.mem_cons_of_mem t hx)
      have hjoin : joinWithComma (t :: t2 :: rest2) =
          t ++ ',' :: joinWithComma (t2 :: rest2) := by
        simp [joinWithComma]
      show splitAux [] (joinWithComma (t :: t2 :: rest2)) = t :: t2 :: rest2
      rw [hjoin, splitAux_append t hcomma [] (',' :: joinWithComma (t2 :: rest2))]
      simp only [splitAux, if_pos rfl]
      rw [List.append_nil, List.reverse_reverse]
      exact congrArg (t :: ·) (ih (by simp) hrest)

theorem joinWithComma_cons_ne_nil (t : PyStr) (ts : List PyStr) (ht : t ≠ []) :
    joinWithComma (t :: ts) ≠ [] := by
  cases ts with
  | nil => simpa [joinWithComma] using ht
  | cons t2 rest =>
    have : joinWithComma (t :: t2 :: rest) = t ++ ',' :: joinWithComma (t2 :: rest) := by
      simp [joinWithComma]
    rw [this]
    simp [ht]

/-- C10: For every tag list accepted by validation (each tag a non-empty
string over `[A-Za-z0-9_-]`, a character class that excludes the comma),
serializing by joining with `','` (`create_particle`/`update_particle`) and
deserializing by splitting on `','` (`get_particle_by_id`) yields exactly the
original list; the empty tag list is stored as the empty string and read back
as the empty list. -/
theorem tags_serialization_roundtrip (ts : List PyStr)
    (h : ∀ t ∈ ts, t ≠ [] ∧ t.all isTagChar = true) :
    parseTags (joinTags ts) = ts ∧ joinTags [] = [] ∧ parseTags [] = [] := by
  refine ⟨?_, rfl, rfl⟩
  cases ts with
  | nil => rfl
  | cons t rest =>
    have hnil : (t :: rest : List PyStr) ≠ [] := by simp
    have hjt : joinTags (t :: rest) = joinWithComma (t :: rest) := by
      simp [joinTags]
    have hcomma : ∀ x ∈ t :: rest, ∀ c ∈ x, c ≠ ',' := by
      intro x hx c hc
      exact tagChar_ne_comma (List.all_eq_true.mp (h x hx).2 c hc)
    have hne : joinWithComma (t :: rest) ≠ [] :=
      joinWithComma_cons_ne_nil t rest (h t (List.mem_cons_self t rest)).1
    rw [hjt, parseTags, if_neg hne]
    exact splitOnComma_joinWithComma (t :: rest) hnil hcomma

/-- Witness for C10 at a concrete accepted tag list. -/
theorem tags_serialization_roundtrip_witness :
    (∀ t ∈ [['a'], ['b', 'c']], t ≠ ([] : PyStr) ∧ t.all isTagChar = true) ∧
      parseTags (joinTags [['a'], ['b', 'c']]) = [['a'], ['b', 'c']] := by
  refine ⟨by decide, ?_⟩
  exact (tags_serialization_roundtrip [['a'], ['b', 'c']] (by decide)).1

/-- C8 counterexample: A database-layer failure during `list_particles`
or `get_particle_stats` is converted into a normal success value (the empty
list, the zero-filled stats dict) instead of being surfaced as an error. -/
theorem db_fault_swallowed_counterexample :
    list_particles_run (.error "disk I/O error") "alice" none none 100 0 =
      .ok []
    ∧ get_particle_stats_run (.error "disk I/O error") "alice" =
        .ok [("Projects", 0), ("Areas", 0), ("Resources", 0), ("Archives", 0), ("total", 0)] :=
  ⟨rfl, rfl⟩

/-- C8 amended: A database-layer failure is re-raised as the generic
`ServiceError` by `create_particle`, `get_particle_by_id`, `update_particle`
and `delete_particle`, but `list_particles` converts it into the empty list
and `get_particle_stats` into the zero-filled stats dict; when the store
answers, every operation returns its normal result. -/
theorem db_fault_boundary (e : String) (pid : Nat) (pd : ParticleUpdate)
    (pdata : ParticleCreate) (u : String) (now : Nat)
    (sf sq : Option String) (limit offset : Nat) :
    create_particle_run (.error e) pdata u now =
        .error "Failed to create particle"
    ∧ get_particle_by_id_run (.error e) pid u = .error "Failed to fetch particle"
    ∧ update_particle_run (.error e) pid pd u now =
        .error "Failed to update particle"
    ∧ delete_particle_run (.error e) pid u = .error "Failed to delete particle"
    ∧ list_particles_run (.error e) u sf sq limit offset = .ok []
    ∧ get_particle_stats_run (.error e) u =
        .ok [("Projects", 0), ("Areas", 0), ("Resources", 0), ("Archives", 0), ("total", 0)]
    ∧ (∀ db : DB, create_particle_run (.ok db) pdata u now =
        (create_particle db pdata u now).2)
    ∧ (∀ db : DB, list_particles_run (.ok db) u sf sq limit offset =
        .ok (list_particles db u sf sq limit offset)) :=
  ⟨rfl, rfl, rfl, rfl, rfl, rfl, fun _ => rfl, fun _ => rfl⟩

/-! ## Lemmas: the tag-validation loop in compositional form -/

theorem cleanTagsLoop_cons_empty {t : PyStr} {ts : List PyStr}
    (h : pyStrip t = []) : cleanTagsLoop (t :: ts) = cleanTagsLoop ts := by
  simp only [cleanTagsLoop, if_pos h]

theorem cleanTagsLoop_cons_long {t : PyStr} {ts : List PyStr}
    (h1 : pyStrip t ≠ []) (h2 : (pyStrip t).length > max_tag_length) :
    cleanTagsLoop (t :: ts) =
      .error ("Tag \"" ++ String.mk (pyStrip t) ++ "\" exceeds 50 character limit") := by
  simp only [cleanTagsLoop, if_neg h1, if_pos h2]

theorem cleanTagsLoop_cons_bad {t : PyStr} {ts : List PyStr}
    (h1 : pyStrip t ≠ []) (h2 : ¬(pyStrip t).length > max_tag_length)
    (h3 : (pyStrip t).all isTagChar = false) :
    cleanTagsLoop (t :: ts) =
      .error ("Tag \"" ++ String.mk (pyStrip t) ++
        "\" contains invalid characters. Use only letters, numbers, underscores, and hyphens") := by
  simp only [cleanTagsLoop, if_neg h1, if_neg h2, h3, Bool.not_false, if_true]

theorem cleanTagsLoop_cons_good {t : PyStr} {ts : List PyStr}
    (h1 : pyStrip t ≠ []) (h2 : ¬(pyStrip t).length > max_tag_length)
    (h3 : (pyStrip t).all isTagChar = true) :
    cleanTagsLoop (t :: ts) =
      match cleanTagsLoop ts with
      | .ok rest => .ok (pyStrip t :: rest)
      | .error e => .error e := by
  simp only [cleanTagsLoop, if_neg h1, if_neg h2, h3, Bool.not_true,
    Bool.false_eq_true, if_false]
  cases cleanTagsLoop ts <;> rfl

/-- The loop of `validate_tags` equals: trim, drop empties, fail on the first
remaining tag that is too long (length checked first) or outside the charset,
otherwise return the trimmed non-empty tags in order. -/
theorem cleanTagsLoop_eq (v : List PyStr) :
    cleanTagsLoop v =
      match ((v.map pyStrip).filter (fun t => t ≠ [])).find?
          (fun t => t.length > max_tag_length || !(t.all isTagChar)) with
      | some bad =>
        if bad.length > max_tag_length then
          .error ("Tag \"" ++ String.mk bad ++ "\" exceeds 50 character limit")
        else
          .error ("Tag \"" ++ String.mk bad ++ "\" contains invalid characters. Use only letters, numbers, underscores, and hyphens")
      | none => .ok ((v.map pyStrip).filter (fun t => t ≠ [])) := by
  induction v with
  | nil => rfl
  | cons t ts ih =>
    have hmapfilt : (List.map pyStrip (t :: ts)).filter (fun x => x ≠ []) =
        if (pyStrip t ≠ [] : Bool) = true then
          pyStrip t :: (List.map pyStrip ts).filter (fun x => x ≠ [])
        else (List.map pyStrip ts).filter (fun x => x ≠ []) := by
      rw [List.map_cons, List.filter_cons]
    by_cases hstrip : pyStrip t = []
    · rw [cleanTagsLoop_cons_empty hstrip, ih, hmapfilt,
        if_neg (by simp [hstrip])]
    · have hkeep : (pyStrip t ≠ [] : Bool) = true := by simp [hstrip]
      rw [hmapfilt, if_pos hkeep]
      by_cases hlen : (pyStrip t).length > max_tag_length
      · have hfind :
            List.find? (fun x => x.length > max_tag_length || !(x.all isTagChar))
              (pyStrip t :: (List.map pyStrip ts).filter (fun x => x ≠ [])) =
              some (pyStrip t) :=
          List.find?_cons_of_pos _ (by simp [hlen])
        rw [hfind, cleanTagsLoop_cons_long hstrip hlen]
        simp only [if_pos hlen]
      · by_cases hall : (pyStrip t).all isTagChar
        · have hfind :
              List.find? (fun x => x.length > max_tag_length || !(x.all isTagChar))
                (pyStrip t :: (List.map pyStrip ts).filter (fun x => x ≠ [])) =
                List.find? (fun x => x.length > max_tag_length || !(x.all isTagChar))
                  ((List.map pyStrip ts).filter (fun x => x ≠ [])) :=
            List.find?_cons_of_neg _ (by simp [hlen, hall])
          rw [hfind, cleanTagsLoop_cons_good hstrip hlen hall, ih]
          cases hF : ((ts.map pyStrip).filter (fun x => x ≠ [])).find?
              (fun x => x.length > max_tag_length || !(x.all isTagChar)) with
          | none => rfl
          | some bad =>
            by_cases hblen : bad.length > max_tag_length
            · simp only [if_pos hblen]
            · simp only [if_neg hblen]
        · have hfind :
              List.find? (fun x => x.length > max_tag_length || !(x.all isTagChar))
                (pyStrip t :: (List.map pyStrip ts).filter (fun x => x ≠ [])) =
                some (pyStrip t) :=
            List.find?_cons_of_pos _ (by simp [hall])
          rw [hfind,
            cleanTagsLoop_cons_bad hstrip hlen (by simpa using hall)]
          simp only [if_neg hlen]

/-- The create-side tag pipeline (count limit checked on the raw pre-dedup
input, then the `validate_tags` loop) coincides with the compositional
spec-side normalization on every input. -/
theorem tags_pipeline_eq_spec (v : List PyStr) :
    tags_field_validate v = specTagNormalization v := by
  unfold tags_field_validate specTagNormalization
  by_cases hcount : v.length > max_tags_per_particle
  · rw [if_pos hcount, if_pos hcount]
  · rw [if_neg hcount, if_neg hcount]
    show validate_tags v =
      match ((v.map pyStrip).filter (fun t => t ≠ [])).find?
          (fun t => t.length > max_tag_length || !(t.all isTagChar)) with
      | some bad =>
        if bad.length > max_tag_length then
          .error ("Tag \"" ++ String.mk bad ++ "\" exceeds 50 character limit")
        else
          .error ("Tag \"" ++ String.mk bad ++ "\" contains invalid characters. Use only letters, numbers, underscores, and hyphens")
      | none => .ok (dedupCaseInsensitive []
          ((v.map pyStrip).filter (fun t => t ≠ [])))
    unfold validate_tags
    by_cases hnil : v = []
    · subst hnil
      rfl
    · rw [if_neg hnil, cleanTagsLoop_eq]
      cases hF : ((v.map pyStrip).filter (fun t => t ≠ [])).find?
          (fun t => t.length > max_tag_length || !(t.all isTagChar)) with
      | none => rfl
      | some bad =>
        by_cases hlen : bad.length > max_tag_length
        · simp only [if_pos hlen]
          rfl
        · simp only [if_neg hlen]
          rfl

/-- The update-side tag pipeline (the `pre=True` validator runs first, then
the count limit applies to its post-dedup output) coincides with the
corresponding compositional spec-side normalization on every input. -/
theorem update_tags_pipeline_eq_spec (v : List PyStr) :
    update_tags_field_validate v = specTagNormalizationUpdate v := by
  unfold update_tags_field_validate specTagNormalizationUpdate
  show (match validate_tags v with
        | .error e => Except.error e
        | .ok cleaned =>
          if cleaned.length > max_tags_per_particle then
            Except.error "ensure this value has at most 10 items"
          else Except.ok cleaned) =
      match ((v.map pyStrip).filter (fun t => t ≠ [])).find?
          (fun t => t.length > max_tag_length || !(t.all isTagChar)) with
      | some bad =>
        if bad.length > max_tag_length then
          .error ("Tag \"" ++ String.mk bad ++ "\" exceeds 50 character limit")
        else
          .error ("Tag \"" ++ String.mk bad ++ "\" contains invalid characters. Use only letters, numbers, underscores, and hyphens")
      | none =>
        if (dedupCaseInsensitive []
            ((v.map pyStrip).filter (fun t => t ≠ []))).length >
              max_tags_per_particle then
          Except.error "ensure this value has at most 10 items"
        else Except.ok (dedupCaseInsensitive []
          ((v.map pyStrip).filter (fun t => t ≠ [])))
  unfold validate_tags
  by_cases hnil : v = []
  · subst hnil
    rfl
  · rw [if_neg hnil, cleanTagsLoop_eq]
    cases hF : ((v.map pyStrip).filter (fun t => t ≠ [])).find?
        (fun t => t.length > max_tag_length || !(t.all isTagChar)) with
    | none => rfl
    | some bad =>
      by_cases hlen : bad.length > max_tag_length
      · simp only [if_pos hlen]
        rfl
      · simp only [if_neg hlen]
        rfl

/-- C5 counterexample: the tag-count limit is not enforced on the raw
pre-dedup input length on the update path.  Eleven raw copies of the tag
`a` exceed the limit of 10 and are rejected by the create pipeline, yet the
update pipeline accepts them, because its `pre=True` validator deduplicates
down to one tag before `max_items` is checked. -/
theorem update_tag_limit_counterexample :
    (List.replicate 11 ['a']).length > max_tags_per_particle
    ∧ tags_field_validate (List.replicate 11 ['a']) =
        .error "ensure this value has at most 10 items"
    ∧ update_tags_field_validate (List.replicate 11 ['a']) = .ok [['a']] :=
  ⟨by decide, rfl, rfl⟩

/-- C5 amended: the stored tags are produced by exactly the stated algorithm
on both paths — trim each tag, drop the ones that become empty, reject the
whole operation (naming the tag) on one that is over-long or outside
`[A-Za-z0-9_-]`, then deduplicate case-insensitively keeping the first
occurrence's casing and relative order — and the tag-count limit is enforced
on the raw pre-dedup input length on create, but on the post-dedup
normalized list length on update (whose validator runs `pre=True`, before
the `max_items` constraint). -/
theorem tags_pipeline_create_update_eq_spec (v : List PyStr) :
    tags_field_validate v = specTagNormalization v
    ∧ update_tags_field_validate v = specTagNormalizationUpdate v :=
  ⟨tags_pipeline_eq_spec v, update_tags_pipeline_eq_spec v⟩

/-! ## Lemmas: idempotence of tag normalization -/

/-- A valid tag, as left in `cleaned_tags` by the loop. -/
def GoodTag (t : PyStr) : Prop :=
  t ≠ [] ∧ ¬t.length > max_tag_length ∧ t.all isTagChar = true

theorem goodTag_of_cleanTagsLoop {v out : List PyStr}
    (h : cleanTagsLoop v = .ok out) : ∀ t ∈ out, GoodTag t := by
  rw [cleanTagsLoop_eq] at h
  cases hF : ((v.map pyStrip).filter (fun t => t ≠ [])).find?
      (fun t => t.length > max_tag_length || !(t.all isTagChar)) with
  | some bad =>
    rw [hF] at h
    by_cases hlen : bad.length > max_tag_length
    · simp only [if_pos hlen] at h
      exact Except.noConfusion h
    · simp only [if_neg hlen] at h
      exact Except.noConfusion h
  | none =>
    rw [hF] at h
    have hout : out = (v.map pyStrip).filter (fun t => t ≠ []) := by
      cases h; rfl
    intro t ht
    rw [hout] at ht
    have hmem := List.mem_filter.mp ht
    have hne : t ≠ [] := by simpa using hmem.2
    have hpred := List.find?_eq_none.mp hF t ht
    simp only [Bool.or_eq_true, not_or, Bool.not_eq_true] at hpred
    refine ⟨hne, ?_, ?_⟩
    · simpa using hpred.1
    · simpa using hpred.2

theorem isPySpace_eq_false_of_tagChar {c : Char} (h : isTagChar c = true) :
    isPySpace c = false := by
  cases hsp : isPySpace c with
  | false => rfl
  | true =>
    exfalso
    simp only [isPySpace, Bool.or_eq_true, beq_iff_eq] at hsp
    rcases hsp with ((((h1 | h1) | h1) | h1) | h1) | h1 <;>
      (subst h1; simp [isTagChar] at h)

theorem dropWhile_eq_self_of_none {p : Char → Bool} {s : PyStr}
    (h : ∀ c ∈ s, p c = false) : s.dropWhile p = s := by
  cases s with
  | nil => rfl
  | cons c cs =>
    have := h c (List.mem_cons_self c cs)
    simp [List.dropWhile, this]

theorem pyStrip_eq_self {t : PyStr} (h : t.all isTagChar = true) :
    pyStrip t = t := by
  have hall : ∀ c ∈ t, isPySpace c = false := fun c hc =>
    isPySpace_eq_false_of_tagChar (List.all_eq_true.mp h c hc)
  unfold pyStrip
  rw [dropWhile_eq_self_of_none hall,
      dropWhile_eq_self_of_none (fun c hc => hall c (List.mem_reverse.mp hc)),
      List.reverse_reverse]

theorem cleanTagsLoop_of_good {l : List PyStr} (h : ∀ t ∈ l, GoodTag t) :
    cleanTagsLoop l = .ok l := by
  induction l with
  | nil => rfl
  | cons t ts ih =>
    obtain ⟨hne, hlen, hall⟩ := h t (List.mem_cons_self t ts)
    have hstrip : pyStrip t = t := pyStrip_eq_self hall
    simp only [cleanTagsLoop, hstrip, if_neg hne, if_neg hlen, hall,
      Bool.not_true, Bool.false_eq_true, if_neg (Bool.false_ne_true)]
    rw [ih (fun x hx => h x (List.mem_cons_of_mem t hx))]
    rfl

theorem mem_of_mem_dedupCI {t : PyStr} :
    ∀ {seen l : List PyStr}, t ∈ dedupCaseInsensitive seen l → t ∈ l := by
  intro seen l
  induction l generalizing seen with
  | nil => intro h; exact absurd h (by simp [dedupCaseInsensitive])
  | cons x xs ih =>
    intro h
    by_cases hx : pyLower x ∈ seen
    · rw [dedupCaseInsensitive, if_pos hx] at h
      exact List.mem_cons_of_mem x (ih h)
    · rw [dedupCaseInsensitive, if_neg hx] at h
      rcases List.mem_cons.mp h with h1 | h1
      · exact h1 ▸ List.mem_cons_self x xs
      · exact List.mem_cons_of_mem x (ih h1)

theorem dedupCI_fresh_and_nodup :
    ∀ (l seen : List PyStr),
      (∀ x ∈ dedupCaseInsensitive seen l, pyLower x ∉ seen) ∧
        ((dedupCaseInsensitive seen l).map pyLower).Nodup := by
  intro l
  induction l with
  | nil => intro seen; simp [dedupCaseInsensitive]
  | cons x xs ih =>
    intro seen
    by_cases hx : pyLower x ∈ seen
    · rw [dedupCaseInsensitive, if_pos hx]
      exact ih seen
    · rw [dedupCaseInsensitive, if_neg hx]
      obtain ⟨hfresh, hnd⟩ := ih (pyLower x :: seen)
      constructor
      · intro y hy
        rcases List.mem_cons.mp hy with h1 | h1
        · exact h1 ▸ hx
        · exact fun hmem => hfresh y h1 (List.mem_cons_of_mem _ hmem)
      · rw [List.map_cons]
        refine List.nodup_cons.mpr ⟨?_, hnd⟩
        intro hmem
        obtain ⟨y, hy, hylow⟩ := List.mem_map.mp hmem
        exact hfresh y hy (hylow ▸ List.mem_cons_self _ _)

theorem dedupCI_eq_self :
    ∀ {l seen : List PyStr}, (l.map pyLower).Nodup →
      (∀ x ∈ l, pyLower x ∉ seen) → dedupCaseInsensitive seen l = l := by
  intro l
  induction l with
  | nil => intro seen _ _; rfl
  | cons x xs ih =>
    intro seen hnd hfresh
    have hx : pyLower x ∉ seen := hfresh x (List.mem_cons_self x xs)
    rw [dedupCaseInsensitive, if_neg hx]
    rw [List.map_cons] at hnd
    have hnd2 := List.nodup_cons.mp hnd
    refine congrArg (x :: ·) (ih hnd2.2 ?_)
    intro y hy hmem
    rcases List.mem_cons.mp hmem with h1 | h1
    · exact hnd2.1 (h1 ▸ List.mem_map_of_mem pyLower hy)
    · exact hfresh y (List.mem_cons_of_mem x hy) h1

/-- C9: Tag normalization is idempotent: whenever `validate_tags`
accepts a list and produces `out`, running `validate_tags` on `out` again
accepts it and returns it unchanged. -/
theorem validate_tags_idempotent {L out : List PyStr}
    (h : validate_tags L = .ok out) : validate_tags out = .ok out := by
  unfold validate_tags at h
  by_cases hnil : L = []
  · rw [if_pos hnil] at h
    have : out = [] := by cases h; rfl
    subst this
    rfl
  · rw [if_neg hnil] at h
    cases hclean : cleanTagsLoop L with
    | error e => rw [hclean] at h; exact absurd h (by simp [Except.map])
    | ok cleaned =>
      rw [hclean] at h
      have hout : out = dedupCaseInsensitive [] cleaned := by
        simpa [Except.map] using h.symm
      have hgoodC : ∀ t ∈ cleaned, GoodTag t := goodTag_of_cleanTagsLoop hclean
      have hgood : ∀ t ∈ out, GoodTag t := fun t ht =>
        hgoodC t (mem_of_mem_dedupCI (hout ▸ ht))
      unfold validate_tags
      by_cases honil : out = []
      · rw [if_pos honil, honil]
      · rw [if_neg honil, cleanTagsLoop_of_good hgood]
        have hnd : (out.map pyLower).Nodup := by
          rw [hout]; exact (dedupCI_fresh_and_nodup cleaned []).2
        exact congrArg Except.ok
          (dedupCI_eq_self hnd (fun x _ => List.not_mem_nil (pyLower x)))

/-- Witness for C9 at a concrete tag list (`["a", "A", "b"]` normalizes to
`["a", "b"]`, which re-normalizes to itself). -/
theorem validate_tags_idempotent_witness :
    validate_tags [['a'], ['A'], ['b']] = .ok [['a'], ['b']] ∧
      validate_tags [['a'], ['b']] = .ok [['a'], ['b']] :=
  ⟨rfl, validate_tags_idempotent (L := [['a'], ['A'], ['b']]) rfl⟩

/-! ## Lemmas: the token table -/

theorem countP_add_countP_not {α : Type} (p : α → Bool) (l : List α) :
    l.countP p + l.countP (fun a => !p a) = l.length := by
  induction l with
  | nil => rfl
  | cons a l ih =>
    cases hpa : p a <;> simp [List.countP_cons, hpa] <;> omega

theorem find?_setTok_self (tbl : TokenTable) (t : String) (rec : TokenRecord) :
    (setTok tbl t rec).find? (fun p => p.1 == t) = some (t, rec) := by
  induction tbl with
  | nil => simp [setTok]
  | cons p rest ih =>
    by_cases hp : p.1 = t
    · rw [setTok, if_pos (by simp [hp])]
      simp
    · rw [setTok, if_neg (by simp [hp]), List.find?_cons_of_neg _ (by simp [hp])]
      exact ih

theorem lookupTok_setTok_self (tbl : TokenTable) (t : String) (rec : TokenRecord) :
    lookupTok (setTok tbl t rec) t = some rec := by
  rw [lookupTok, find?_setTok_self]
  rfl

theorem find?_filter_of_found {α : Type} {p q : α → Bool} {l : List α} {x : α}
    (h : l.find? p = some x) (hq : q x = true) :
    (l.filter q).find? p = some x := by
  induction l with
  | nil => exact absurd h (by simp)
  | cons a l ih =>
    by_cases hpa : p a = true
    · have hax : a = x := by
        rw [List.find?_cons_of_pos _ hpa] at h
        exact Option.some.inj h
      subst hax
      rw [List.filter_cons, if_pos hq, List.find?_cons_of_pos _ hpa]
    · rw [List.find?_cons_of_neg _ hpa] at h
      rw [List.filter_cons]
      by_cases hqa : q a = true
      · rw [if_pos hqa, List.find?_cons_of_neg _ hpa]
        exact ih h
      · rw [if_neg hqa]
        exact ih h

theorem lookupTok_removeTok (tbl : TokenTable) (t : String) :
    lookupTok (removeTok tbl t) t = none := by
  rw [lookupTok, Option.map_eq_none']
  rw [List.find?_eq_none]
  intro p hp
  have := (List.mem_filter.mp hp).2
  simpa using this

theorem unique_key_of_nodup {tbl : TokenTable} {t : String}
    {x : String × TokenRecord} (hkeys : (tbl.map Prod.fst).Nodup)
    (hfind : tbl.find? (fun p => p.1 == t) = some x) :
    ∀ y ∈ tbl, y.1 = t → y = x := by
  induction tbl with
  | nil => exact fun y hy => absurd hy (List.not_mem_nil y)
  | cons a l ih =>
    rw [List.map_cons] at hkeys
    have hnd := List.nodup_cons.mp hkeys
    by_cases hpa : a.1 = t
    · have hax : a = x := by
        rw [List.find?_cons_of_pos _ (by simp [hpa])] at hfind
        exact Option.some.inj hfind
      subst hax
      intro y hy hyt
      rcases List.mem_cons.mp hy with h1 | h1
      · exact h1
      · exfalso
        have : a.1 ∈ List.map Prod.fst l := by
          rw [hpa, ← hyt]
          exact List.mem_map_of_mem Prod.fst h1
        exact hnd.1 this
    · rw [List.find?_cons_of_neg _ (by simp [hpa])] at hfind
      intro y hy hyt
      rcases List.mem_cons.mp hy with h1 | h1
      · exact absurd (h1 ▸ hyt) hpa
      · exact ih hnd.2 hfind y h1 hyt

/-- C3: `revoke_user_tokens(u)` removes exactly the tokens whose record
names `u` (a binding survives iff it was present and belongs to another
user), leaves every other user's tokens in the table, and the count it
returns plus the size of the remaining table equals the original size. -/
theorem revoke_user_tokens_correct (tbl : TokenTable) (u : String) :
    (∀ p : String × TokenRecord,
        p ∈ (revoke_user_tokens tbl u).2 ↔ p ∈ tbl ∧ p.2.username ≠ u)
    ∧ (∀ p : String × TokenRecord,
        p ∈ tbl → p.2.username ≠ u → p ∈ (revoke_user_tokens tbl u).2)
    ∧ (revoke_user_tokens tbl u).1 + (revoke_user_tokens tbl u).2.length =
        tbl.length
    ∧ (revoke_user_tokens tbl u).1 =
        (tbl.filter (fun p => p.2.username == u)).length := by
  refine ⟨?_, ?_, ?_, rfl⟩
  · intro p
    rw [revoke_user_tokens]
    simp [List.mem_filter]
  · intro p hp hu
    rw [revoke_user_tokens]
    exact List.mem_filter.mpr ⟨hp, by simp [hu]⟩
  · rw [revoke_user_tokens]
    simp only [← List.countP_eq_length_filter]
    exact countP_add_countP_not (fun p => p.2.username == u) tbl

/-- The behaviour `validate_token` exhibits on a table with distinct keys:
(1) a token just issued by `create_token(u)` validates to `u` while its age
is within `expire_seconds`; (2) after `revoke_token(T)` the token no longer
validates; (3) after `revoke_user_tokens(u)` no token of `u` validates;
(4) an expired token yields `none` and is deleted from the table;
(5) a record without a `created` timestamp is always expired;
(6) validation succeeds with `u` exactly when the token is present,
unexpired, and its record names `u`. -/
def TokenLifecycle (tm : TokenManager) (now now2 : Int) (tbl : TokenTable)
    (t u : String) : Prop :=
  (now2 - now ≤ (tm.expire_seconds : Int) →
      (validate_token tm now2 (create_token tm now t u tbl).2 t).1 = some u)
  ∧ (validate_token tm now2 (revoke_token tbl t).2 t).1 = none
  ∧ (∀ rec, lookupTok tbl t = some rec → rec.username = u →
      (validate_token tm now2 (revoke_user_tokens tbl u).2 t).1 = none)
  ∧ (∀ rec, lookupTok tbl t = some rec → is_token_expired tm now2 rec = true →
      validate_token tm now2 tbl t = (none, removeTok tbl t)
      ∧ lookupTok (validate_token tm now2 tbl t).2 t = none)
  ∧ (∀ rec : TokenRecord, rec.created = none →
      is_token_expired tm now2 rec = true)
  ∧ (∀ u2, (validate_token tm now2 tbl t).1 = some u2 ↔
      ∃ rec, lookupTok tbl t = some rec ∧ rec.username = u2 ∧
        is_token_expired tm now2 rec = false)

/-- C2: The token lifecycle of `TokenManager` behaves as specified, on
any table whose keys are distinct (the Python dict invariant). -/
theorem token_lifecycle (tm : TokenManager) (now now2 : Int)
    (tbl : TokenTable) (t u : String)
    (hkeys : (tbl.map Prod.fst).Nodup) :
    TokenLifecycle tm now now2 tbl t u := by
  have hes : (0 : Int) ≤ (tm.expire_seconds : Int) := Int.ofNat_nonneg _
  refine ⟨?_, ?_, ?_, ?_, ?_, ?_⟩
  · -- fresh token validates while unexpired
    intro hage
    have hfresh : is_token_expired tm now ⟨u, some now, now⟩ = false := by
      show decide (now - now > (tm.expire_seconds : Int)) = false
      rw [decide_eq_false_iff_not]
      omega
    have hfind := find?_setTok_self tbl t ⟨u, some now, now⟩
    have hkept := @find?_filter_of_found _ _
      (fun p => !is_token_expired tm now p.2) _ _ hfind (by simp [hfresh])
    have hlook : lookupTok (create_token tm now t u tbl).2 t =
        some ⟨u, some now, now⟩ := by
      simp only [create_token, cleanup_expired_tokens, lookupTok]
      rw [hkept]
      rfl
    have hnotexp : is_token_expired tm now2 ⟨u, some now, now⟩ = false := by
      show decide (now2 - now > (tm.expire_seconds : Int)) = false
      rw [decide_eq_false_iff_not]
      omega
    simp [validate_token, hlook, hnotexp]
  · -- revoked token no longer validates
    by_cases hl : (lookupTok tbl t).isSome
    · rw [revoke_token, if_pos hl]
      rw [validate_token, lookupTok_removeTok]
    · rw [revoke_token, if_neg hl]
      rw [validate_token]
      rw [Option.not_isSome_iff_eq_none] at hl
      rw [hl]
  · -- revoke_user_tokens kills the user's token
    intro rec hlook hu
    obtain ⟨pr, hfind, hpr⟩ := Option.map_eq_some'.mp hlook
    have hprt : pr.1 = t := by simpa using List.find?_some hfind
    have huniq := unique_key_of_nodup hkeys hfind
    have hgone : lookupTok (revoke_user_tokens tbl u).2 t = none := by
      rw [lookupTok, Option.map_eq_none', List.find?_eq_none]
      intro y hy
      have hmem := List.mem_filter.mp hy
      intro hyt
      have : y = pr := huniq y hmem.1 (by simpa using hyt)
      rw [this] at hmem
      have : pr.2.username ≠ u := by simpa using hmem.2
      exact this (hpr ▸ hu)
    rw [validate_token, hgone]
  · -- expired token: none, and evicted
    intro rec hlook hexp
    have hsome : (lookupTok tbl t).isSome := by rw [hlook]; rfl
    constructor
    · simp [validate_token, hlook, hexp, revoke_token, hsome]
    · simp [validate_token, hlook, hexp, revoke_token, hsome,
        lookupTok_removeTok]
  · -- missing created timestamp means expired
    intro rec hc
    rw [is_token_expired, hc]
  · -- validation characterization
    intro u2
    cases hlook : lookupTok tbl t with
    | none =>
      constructor
      · intro h
        rw [validate_token, hlook] at h
        exact absurd h (by simp)
      · rintro ⟨rec, hrec, -, -⟩
        exact Option.noConfusion hrec
    | some rec =>
      cases hexp : is_token_expired tm now2 rec with
      | true =>
        constructor
        · intro h
          rw [validate_token, hlook] at h
          simp [hexp] at h
        · rintro ⟨rec2, hrec2, -, hexp2⟩
          cases Option.some.inj hrec2
          exact absurd hexp2 (by simp [hexp])
      | false =>
        constructor
        · intro h
          rw [validate_token, hlook] at h
          simp only [hexp] at h
          refine ⟨rec, rfl, ?_, hexp⟩
          simpa using h
        · rintro ⟨rec2, hrec2, hname, -⟩
          cases Option.some.inj hrec2
          rw [validate_token, hlook]
          simp [hexp, hname]

/-- Witness for C2 on the empty table. -/
theorem token_lifecycle_witness :
    (([] : TokenTable).map Prod.fst).Nodup ∧
      TokenLifecycle ⟨24⟩ 0 10 [] "tok" "alice" :=
  ⟨List.nodup_nil, token_lifecycle ⟨24⟩ 0 10 [] "tok" "alice" List.nodup_nil⟩

/-! ## Lemmas: ownership scoping -/

theorem filter_scope_nil {db : DB} {pid : Nat} {A B : String}
    (hBA : B ≠ A) (hpk : ∀ s ∈ db, s.id = pid → s.user = A) :
    db.filter (fun r => r.id == pid && r.user == B) = [] := by
  rw [List.filter_eq_nil_iff]
  intro a ha
  simp only [Bool.and_eq_true, beq_iff_eq, not_and]
  intro hid hu
  exact hBA (hu ▸ hpk a ha hid)

theorem filter_scope_single {db : DB} {pid : Nat} {u : String}
    {r : ParticleRow} (hnd : (db.map (fun x => x.id)).Nodup) (hr : r ∈ db)
    (hid : r.id = pid) (hu : r.user = u) :
    db.filter (fun x => x.id == pid && x.user == u) = [r] := by
  induction db with
  | nil => exact absurd hr (List.not_mem_nil r)
  | cons a l ih =>
    rw [List.map_cons] at hnd
    have hnd2 := List.nodup_cons.mp hnd
    rcases List.mem_cons.mp hr with h1 | h1
    · subst h1
      rw [List.filter_cons, if_pos (by simp [hid, hu])]
      have hrest : l.filter (fun x => x.id == pid && x.user == u) = [] := by
        rw [List.filter_eq_nil_iff]
        intro x hx
        simp only [Bool.and_eq_true, beq_iff_eq, not_and]
        intro hxid
        have hnot : ∀ y ∈ l, ¬y.id = pid := by simpa [hid] using hnd2.1
        exact absurd hxid (hnot x hx)
      rw [hrest]
    · have haid : a.id ≠ pid := by
        intro haid
        apply hnd2.1
        rw [haid, ← hid]
        exact List.mem_map_of_mem (fun y => y.id) h1
      rw [List.filter_cons, if_neg (by simp [haid])]
      exact ih hnd2.2 h1

/-- C1 counterexample: Cross-user `delete_particle` does not fail with
`'Particle not found or access denied'`: the rowcount-0 `ServiceError`
raised inside the database session is converted to a `DatabaseError` by the
session context manager and re-raised as
`ServiceError("Failed to delete particle")`. -/
theorem cross_user_delete_message_counterexample :
    (delete_particle dbA 1 "bob").2 = .error "Failed to delete particle"
    ∧ "Failed to delete particle" ≠ "Particle not found or access denied" :=
  ⟨rfl, by decide⟩

/-- C1 amended: For a particle of owner `A` (with `id` unique in the
table) and any `B ≠ A`: `get_particle_by_id` and `update_particle` fail with
the NotFound-style `'Particle not found or access denied'`;
`delete_particle` fails with `'Failed to delete particle'` (an error the
HTTP layer also maps to 404 Not Found, still not a distinct forbidden
signal); none of the three returns `A`'s data or changes the table. -/
theorem cross_user_access_not_found (db : DB) (pid : Nat) (A B : String)
    (r : ParticleRow) (hr : r ∈ db) (hid : r.id = pid) (hA : r.user = A)
    (hBA : B ≠ A) (hpk : ∀ s ∈ db, s.id = pid → s.user = A) :
    get_particle_by_id db pid B = .error "Particle not found or access denied"
    ∧ (∀ (pd : ParticleUpdate) (now : Nat),
        update_particle db pid pd B now =
          (db, .error "Particle not found or access denied"))
    ∧ delete_particle db pid B = (db, .error "Failed to delete particle") := by
  have hnil : db.filter (fun x => x.id == pid && x.user == B) = [] :=
    filter_scope_nil hBA hpk
  have hget : get_particle_by_id db pid B =
      .error "Particle not found or access denied" := by
    rw [get_particle_by_id, hnil]
  refine ⟨hget, ?_, ?_⟩
  · intro pd now
    rw [update_particle, hget]
  · have hkeep : db.filter (fun x => !(x.id == pid && x.user == B)) = db := by
      rw [List.filter_eq_self]
      intro a ha
      have hna := List.filter_eq_nil_iff.mp hnil a ha
      cases hx : (a.id == pid && a.user == B) with
      | false => rfl
      | true => exact absurd hx hna
    rw [delete_particle, hnil, hkeep]
    rfl

/-- Witness for C1's amended theorem: `bob` cannot see or touch `alice`'s
particle. -/
theorem cross_user_access_not_found_witness :
    aliceRow ∈ dbA ∧ aliceRow.id = 1 ∧ aliceRow.user = "alice"
    ∧ ("bob" : String) ≠ "alice"
    ∧ get_particle_by_id dbA 1 "bob" =
        .error "Particle not found or access denied"
    ∧ delete_particle dbA 1 "bob" =
        (dbA, .error "Failed to delete particle") := by
  have h := cross_user_access_not_found dbA 1 "alice" "bob" aliceRow
    (by simp [dbA]) rfl rfl (by decide)
    (by intro s hs _; simp [dbA] at hs; subst hs; rfl)
  exact ⟨by simp [dbA], rfl, rfl, by decide, h.1, h.2.2⟩

/-- C4 counterexample: An `update_particle` call whose partial contains
no fields succeeds but does not refresh the stored `updated` timestamp: it
returns the existing particle with `updated = 5` although now is `10`. -/
theorem update_empty_partial_counterexample :
    (update_particle dbA 1 ⟨none, none, none, none⟩ "alice" 10).2 =
      .ok (rowToResponse aliceRow)
    ∧ (rowToResponse aliceRow).updated = 5 ∧ (5 : Nat) ≠ 10 :=
  ⟨rfl, rfl, by decide⟩

/-- C4 amended: `update_particle` fails with the NotFound-style error
when no row matches both id and owner; when at least one field is present
in the partial and the call succeeds, the stored particle's `updated`
timestamp is refreshed to now — even if the net field values are unchanged —
and every absent field keeps its previous value; a partial with no fields
succeeds but returns the stored particle unchanged, without refreshing
`updated`. -/
theorem update_particle_behaviour (db : DB) (pid : Nat) (pd : ParticleUpdate)
    (u : String) (now : Nat) :
    (db.filter (fun x => x.id == pid && x.user == u) = [] →
        update_particle db pid pd u now =
          (db, .error "Particle not found or access denied"))
    ∧ (∀ r, (db.map (fun x => x.id)).Nodup → r ∈ db → r.id = pid →
        r.user = u →
        ¬(pd.title = none ∧ pd.content = none ∧ pd.tags = none ∧ pd.sect = none) →
        (update_particle db pid pd u now).2 =
            .ok (rowToResponse (applyUpdate pd now r))
          ∧ (applyUpdate pd now r).updated = now
          ∧ (pd.title = none → (applyUpdate pd now r).title = r.title)
          ∧ (pd.content = none → (applyUpdate pd now r).content = r.content)
          ∧ (pd.tags = none → (applyUpdate pd now r).tags = r.tags)
          ∧ (pd.sect = none → (applyUpdate pd now r).sect = r.sect))
    ∧ (∀ r, (db.map (fun x => x.id)).Nodup → r ∈ db → r.id = pid →
        r.user = u →
        pd.title = none → pd.content = none → pd.tags = none → pd.sect = none →
        update_particle db pid pd u now = (db, .ok (rowToResponse r))) := by
  refine ⟨?_, ?_, ?_⟩
  · intro hnil
    have hget : get_particle_by_id db pid u =
        .error "Particle not found or access denied" := by
      rw [get_particle_by_id, hnil]
    rw [update_particle, hget]
  · intro r hnd hr hid hu hne
    have hsingle := filter_scope_single hnd hr hid hu
    have hget : get_particle_by_id db pid u = .ok (rowToResponse r) := by
      rw [get_particle_by_id, hsingle]
    have hpred : (r.id == pid && r.user == u) = true := by simp [hid, hu]
    have hdb1 : (db.map (fun x =>
        if x.id == pid && x.user == u then applyUpdate pd now x else x)).filter
          (fun x => x.id == pid && x.user == u) = [applyUpdate pd now r] := by
      rw [List.filter_map]
      have hcongr : db.filter ((fun x => x.id == pid && x.user == u) ∘
          (fun x => if x.id == pid && x.user == u then applyUpdate pd now x else x)) =
          db.filter (fun x => x.id == pid && x.user == u) := by
        apply List.filter_congr
        intro x _
        by_cases hx : (x.id == pid && x.user == u) = true
        · simp only [Function.comp_apply, if_pos hx]
          simp [applyUpdate]
        · simp only [Function.comp_apply, if_neg hx]
      rw [hcongr, hsingle, List.map_cons, List.map_nil, if_pos hpred]
    have hget1 : get_particle_by_id (db.map (fun x =>
        if x.id == pid && x.user == u then applyUpdate pd now x else x)) pid u =
        .ok (rowToResponse (applyUpdate pd now r)) := by
      rw [get_particle_by_id, hdb1]
    refine ⟨?_, rfl, ?_, ?_, ?_, ?_⟩
    · simp only [update_particle, hget]
      rw [if_neg hne, hsingle]
      simp only [List.length_cons, List.length_nil]
      rw [if_neg (by omega), hget1]
    · intro h; simp [applyUpdate, h]
    · intro h; simp [applyUpdate, h]
    · intro h; simp [applyUpdate, h]
    · intro h; simp [applyUpdate, h]
  · intro r hnd hr hid hu h1 h2 h3 h4
    have hsingle := filter_scope_single hnd hr hid hu
    have hget : get_particle_by_id db pid u = .ok (rowToResponse r) := by
      rw [get_particle_by_id, hsingle]
    simp only [update_particle, hget]
    rw [if_pos ⟨h1, h2, h3, h4⟩]

/-- Witness for C4's amended theorem: updating the title of `alice`'s
particle at time 10 refreshes `updated` to 10 and keeps the other fields. -/
theorem update_particle_behaviour_witness :
    (update_particle dbA 1 ⟨some "T2", none, none, none⟩ "alice" 10).2 =
      .ok (rowToResponse (applyUpdate ⟨some "T2", none, none, none⟩ 10 aliceRow))
    ∧ (applyUpdate (⟨some "T2", none, none, none⟩ : ParticleUpdate) 10 aliceRow).updated = 10
    ∧ (applyUpdate (⟨some "T2", none, none, none⟩ : ParticleUpdate) 10 aliceRow).content =
        aliceRow.content := by
  have h := (update_particle_behaviour dbA 1 ⟨some "T2", none, none, none⟩
    "alice" 10).2.1 aliceRow (by simp [dbA]) (by simp [dbA]) rfl rfl
    (by simp)
  exact ⟨h.1, h.2.1, h.2.2.2.1 rfl⟩

/-! ## Listing without filters (C6) -/

theorem matchesFilters_none (u : String) (r : ParticleRow) :
    matchesFilters u none none r = (r.user == u) := by
  simp [matchesFilters]

/-- C6: With no section filter and no search query, and a limit large
enough to hold them, `list_particles` returns exactly the particles owned by
the caller (a permutation of the ownership-filtered table), ordered by
created timestamp descending, and the empty list — not an error — when the
caller owns nothing. -/
theorem list_particles_no_filters (db : DB) (u : String) (limit : Nat)
    (h : (db.filter (fun r => r.user == u)).length ≤ limit) :
    (list_particles db u none none limit 0).Perm
        ((db.filter (fun r => r.user == u)).map rowToResponse)
    ∧ (list_particles db u none none limit 0).Pairwise
        (fun a b : ParticleResponse => b.created ≤ a.created)
    ∧ (db.filter (fun r => r.user == u) = [] →
        list_particles db u none none limit 0 = []) := by
  have hfeq : db.filter (matchesFilters u none none) =
      db.filter (fun r => r.user == u) :=
    List.filter_congr (fun x _ => matchesFilters_none u x)
  have hperm : ((db.filter (fun r => r.user == u)).insertionSort createdDesc).Perm
      (db.filter (fun r => r.user == u)) :=
    List.perm_insertionSort createdDesc _
  have hlen : ((db.filter (fun r => r.user == u)).insertionSort createdDesc).length
      ≤ limit := by
    rw [hperm.length_eq]
    exact h
  have hlist : list_particles db u none none limit 0 =
      ((db.filter (fun r => r.user == u)).insertionSort createdDesc).map
        rowToResponse := by
    rw [list_particles, hfeq, List.drop_zero, List.take_of_length_le hlen]
  refine ⟨?_, ?_, ?_⟩
  · rw [hlist]
    exact hperm.map rowToResponse
  · rw [hlist]
    refine List.Pairwise.map rowToResponse (fun a b hab => hab) ?_
    exact List.sorted_insertionSort createdDesc _
  · intro he
    rw [hlist, he]
    rfl

/-- Witness for C6: `alice` owns two of the three rows; the listing returns
exactly those two, newest first. -/
theorem list_particles_no_filters_witness :
    (dbAB.filter (fun r => r.user == "alice")).length ≤ 100
    ∧ (list_particles dbAB "alice" none none 100 0).Perm
        ((dbAB.filter (fun r => r.user == "alice")).map rowToResponse)
    ∧ (list_particles dbAB "alice" none none 100 0).Pairwise
        (fun a b : ParticleResponse => b.created ≤ a.created) := by
  have h := list_particles_no_filters dbAB "alice" 100 (by decide)
  exact ⟨by decide, h.1, h.2.1⟩

/-! ## Lemmas: the stats dict (C7) -/

theorem find?_dictSet_self (d : List (String × Nat)) (k : String) (n : Nat) :
    (dictSet d k n).find? (fun p => p.1 == k) = some (k, n) := by
  induction d with
  | nil => simp [dictSet]
  | cons p rest ih =>
    by_cases hp : p.1 = k
    · rw [dictSet, if_pos (by simp [hp])]
      simp
    · rw [dictSet, if_neg (by simp [hp]), List.find?_cons_of_neg _ (by simp [hp])]
      exact ih

theorem dictGetD_dictSet_self (d : List (String × Nat)) (k : String) (n : Nat) :
    dictGetD (dictSet d k n) k = n := by
  rw [dictGetD, find?_dictSet_self]

theorem dictGetD_dictSet_ne (d : List (String × Nat)) (k : String) (n : Nat)
    {k2 : String} (h : k2 ≠ k) :
    dictGetD (dictSet d k n) k2 = dictGetD d k2 := by
  have hkk2 : ¬k = k2 := fun e => h e.symm
  induction d with
  | nil =>
    rw [dictSet, dictGetD, List.find?_cons_of_neg _ (by simpa using hkk2)]
    rfl
  | cons p rest ih =>
    by_cases hp : p.1 = k
    · rw [dictSet, if_pos (by simp [hp])]
      rw [dictGetD, List.find?_cons_of_neg _ (by simpa using hkk2), dictGetD,
        List.find?_cons_of_neg _ (by simp only [hp, beq_iff_eq]; exact hkk2)]
    · rw [dictSet, if_neg (by simp [hp])]
      by_cases hp2 : p.1 = k2
      · rw [dictGetD, List.find?_cons_of_pos _ (by simp [hp2]), dictGetD,
          List.find?_cons_of_pos _ (by simp [hp2])]
      · rw [dictGetD, List.find?_cons_of_neg _ (by simp [hp2]), dictGetD,
          List.find?_cons_of_neg _ (by simp [hp2])]
        rw [← dictGetD, ← dictGetD]
        exact ih

theorem keys_dictSet (d : List (String × Nat)) (k : String) (n : Nat)
    (h : k ∈ d.map Prod.fst) :
    (dictSet d k n).map Prod.fst = d.map Prod.fst := by
  induction d with
  | nil => exact absurd h (by simp)
  | cons p rest ih =>
    by_cases hp : p.1 = k
    · rw [dictSet, if_pos (by simp [hp])]
      simp [hp]
    · rw [dictSet, if_neg (by simp [hp]), List.map_cons, List.map_cons]
      have hk : k ∈ rest.map Prod.fst := by
        rw [List.map_cons] at h
        rcases List.mem_cons.mp h with h1 | h1
        · exact absurd h1.symm hp
        · exact h1
      rw [ih hk]

theorem keys_statsFold (gs : List (String × Nat)) :
    ∀ d : List (String × Nat), (∀ g ∈ gs, g.1 ∈ d.map Prod.fst) →
      "total" ∈ d.map Prod.fst →
      (statsFold d gs).map Prod.fst = d.map Prod.fst := by
  induction gs with
  | nil => intro d _ _; rfl
  | cons g gs ih =>
    intro d hg ht
    obtain ⟨s, c⟩ := g
    have hs : s ∈ d.map Prod.fst := hg (s, c) (List.mem_cons_self _ _)
    have h1 : (dictSet d s c).map Prod.fst = d.map Prod.fst :=
      keys_dictSet d s c hs
    have h2 : (dictSet (dictSet d s c) "total"
        (dictGetD (dictSet d s c) "total" + c)).map Prod.fst =
        d.map Prod.fst := by
      rw [keys_dictSet _ _ _ (h1 ▸ ht), h1]
    rw [statsFold]
    rw [ih _ ?_ (h2 ▸ ht)]
    · exact h2
    · intro g2 hg2
      rw [h2]
      exact hg (g2) (List.mem_cons_of_mem _ hg2)

theorem total_statsFold (gs : List (String × Nat))
    (hnt : ∀ g ∈ gs, g.1 ≠ "total") :
    ∀ d : List (String × Nat),
      dictGetD (statsFold d gs) "total" =
        dictGetD d "total" + (gs.map Prod.snd).sum := by
  induction gs with
  | nil => intro d; simp [statsFold]
  | cons g gs ih =>
    intro d
    obtain ⟨s, c⟩ := g
    have hs : s ≠ "total" := hnt (s, c) (List.mem_cons_self _ _)
    rw [statsFold]
    rw [ih (fun g2 hg2 => hnt g2 (List.mem_cons_of_mem _ hg2))]
    rw [dictGetD_dictSet_self, dictGetD_dictSet_ne _ _ _ (Ne.symm hs)]
    simp only [List.map_cons, List.sum_cons]
    omega

theorem statsFold_other (gs : List (String × Nat)) {s0 : String}
    (hs : ∀ g ∈ gs, g.1 ≠ s0) (hnt : s0 ≠ "total") :
    ∀ d : List (String × Nat),
      dictGetD (statsFold d gs) s0 = dictGetD d s0 := by
  induction gs with
  | nil => intro d; rfl
  | cons g gs ih =>
    intro d
    obtain ⟨s, c⟩ := g
    rw [statsFold]
    rw [ih (fun g2 hg2 => hs g2 (List.mem_cons_of_mem _ hg2))]
    rw [dictGetD_dictSet_ne _ _ _ hnt, dictGetD_dictSet_ne _ _ _
      (Ne.symm (hs (s, c) (List.mem_cons_self _ _)))]

theorem statsFold_hit (gs : List (String × Nat)) {s0 : String} {c0 : Nat}
    (hnd : (gs.map Prod.fst).Nodup) (hmem : (s0, c0) ∈ gs)
    (hs0 : s0 ≠ "total") :
    ∀ d : List (String × Nat), dictGetD (statsFold d gs) s0 = c0 := by
  induction gs with
  | nil => exact absurd hmem (List.not_mem_nil _)
  | cons g gs ih =>
    intro d
    obtain ⟨s, c⟩ := g
    rw [List.map_cons] at hnd
    have hnd2 := List.nodup_cons.mp hnd
    rcases List.mem_cons.mp hmem with h1 | h1
    · obtain ⟨hss, hcc⟩ := Prod.mk.inj h1
      subst hss
      subst hcc
      rw [statsFold]
      have hrest : ∀ g2 ∈ gs, g2.1 ≠ s0 := by
        intro g2 hg2 hg2s
        have hmm : s0 ∈ gs.map Prod.fst := by
          have h3 := List.mem_map_of_mem Prod.fst hg2
          rwa [hg2s] at h3
        exact hnd2.1 hmm
      rw [statsFold_other gs hrest hs0]
      rw [dictGetD_dictSet_ne _ _ _ hs0, dictGetD_dictSet_self]
    · rw [statsFold]
      exact ih hnd2.2 h1 _

/-! ## Lemmas: first-occurrence dedup (`GROUP BY section`) -/

theorem mem_dedupFirst (x : String) : ∀ (l : List String),
    x ∈ dedupFirst l ↔ x ∈ l
  | [] => by simp [dedupFirst]
  | a :: l => by
    rw [dedupFirst]
    constructor
    · intro h
      rcases List.mem_cons.mp h with h1 | h1
      · exact h1 ▸ List.mem_cons_self a l
      · have h2 := (mem_dedupFirst x (l.filter (fun y => !(y == a)))).mp h1
        exact List.mem_cons_of_mem a (List.mem_filter.mp h2).1
    · intro h
      rcases List.mem_cons.mp h with h1 | h1
      · exact h1 ▸ List.mem_cons_self x _
      · by_cases hxa : x = a
        · exact hxa ▸ List.mem_cons_self x _
        · apply List.mem_cons_of_mem
          apply (mem_dedupFirst x (l.filter (fun y => !(y == a)))).mpr
          exact List.mem_filter.mpr ⟨h1, by simp [hxa]⟩
termination_by l => l.length
decreasing_by
  all_goals
    simp only [List.length_cons]
    exact Nat.lt_succ_of_le (List.length_filter_le _ _)

theorem nodup_dedupFirst : ∀ (l : List String), (dedupFirst l).Nodup
  | [] => by simp [dedupFirst]
  | a :: l => by
    rw [dedupFirst]
    refine List.nodup_cons.mpr ⟨?_, nodup_dedupFirst (l.filter (fun y => !(y == a)))⟩
    intro hmem
    have h1 := (mem_dedupFirst a (l.filter (fun y => !(y == a)))).mp hmem
    have h2 := (List.mem_filter.mp h1).2
    simp at h2
termination_by l => l.length
decreasing_by
  all_goals
    simp only [List.length_cons]
    exact Nat.lt_succ_of_le (List.length_filter_le _ _)

theorem sum_count_dedupFirst : ∀ (l : List String),
    ((dedupFirst l).map (fun s => l.count s)).sum = l.length
  | [] => by simp [dedupFirst]
  | a :: l => by
    rw [dedupFirst, List.map_cons, List.sum_cons]
    have hcnt : ∀ s ∈ dedupFirst (l.filter (fun y => !(y == a))),
        (fun s => (a :: l).count s) s =
          (fun s => (l.filter (fun y => !(y == a))).count s) s := by
      intro s hs
      have hsl := (mem_dedupFirst s (l.filter (fun y => !(y == a)))).mp hs
      have hsa : s ≠ a := by
        have := (List.mem_filter.mp hsl).2
        simpa using this
      show (a :: l).count s = (l.filter (fun y => !(y == a))).count s
      rw [List.count_cons_of_ne hsa l]
      exact (List.count_filter (by simp [hsa])).symm
    rw [List.map_congr_left hcnt,
      sum_count_dedupFirst (l.filter (fun y => !(y == a))),
      List.count_cons_self]
    have h1 := countP_add_countP_not (fun y => y == a) l
    have h2 : l.count a = l.countP (fun y => y == a) := List.count_eq_countP a l
    have h3 : (l.filter (fun y => !(y == a))).length =
        l.countP (fun y => !(y == a)) :=
      (List.countP_eq_length_filter _ l).symm
    rw [List.length_cons]
    omega
termination_by l => l.length
decreasing_by
  all_goals
    simp only [List.length_cons]
    exact Nat.lt_succ_of_le (List.length_filter_le _ _)

/-- C7: For every username — including one owning no particles —
`get_particle_stats` returns a dict whose keys are exactly
`Projects, Areas, Resources, Archives, total` in that order, with each
section key holding the owner's particle count in that section (zero when
none) and `total` the owner's overall particle count.  The only hypothesis
is the table's `CHECK` constraint that every stored section is one of the
four PARA values; the operation is total (never an error). -/
theorem get_particle_stats_correct (db : DB) (u : String)
    (hsec : ∀ r ∈ db, r.sect ∈ paraSections) :
    (get_particle_stats db u).map Prod.fst =
      ["Projects", "Areas", "Resources", "Archives", "total"]
    ∧ dictGetD (get_particle_stats db u) "total" =
        (db.filter (fun r => r.user == u)).length
    ∧ ∀ s ∈ paraSections,
        dictGetD (get_particle_stats db u) s =
          (db.filter (fun r => r.user == u && r.sect == s)).length := by
  have hne_total : ∀ x ∈ paraSections, x ≠ "total" := by decide
  have hzeroInit : ∀ x ∈ paraSections, dictGetD statsInit x = 0 := by decide
  have hsec2 : ∀ r ∈ db.filter (fun r => r.user == u), r.sect ∈ paraSections :=
    fun r hr => hsec r (List.mem_filter.mp hr).1
  have gkeys : (groupBySection (db.filter (fun r => r.user == u))).map Prod.fst =
      dedupFirst ((db.filter (fun r => r.user == u)).map (fun r => r.sect)) := by
    rw [groupBySection, List.map_map]
    exact List.map_id _
  have hgmem : ∀ g ∈ groupBySection (db.filter (fun r => r.user == u)),
      g.1 ∈ paraSections := by
    intro g hg
    have h1 : g.1 ∈ (groupBySection (db.filter (fun r => r.user == u))).map
        Prod.fst := List.mem_map_of_mem Prod.fst hg
    rw [gkeys] at h1
    have h2 := (mem_dedupFirst g.1 _).mp h1
    obtain ⟨r, hr, hrs⟩ := List.mem_map.mp h2
    exact hrs ▸ hsec2 r hr
  have hgne : ∀ g ∈ groupBySection (db.filter (fun r => r.user == u)),
      g.1 ≠ "total" := fun g hg => hne_total g.1 (hgmem g hg)
  have hgnodup : ((groupBySection (db.filter (fun r => r.user == u))).map
      Prod.fst).Nodup := by
    rw [gkeys]
    exact nodup_dedupFirst _
  have hkeysInit : ∀ g ∈ groupBySection (db.filter (fun r => r.user == u)),
      g.1 ∈ statsInit.map Prod.fst := by
    intro g hg
    have h4 := hgmem g hg
    rcases (show g.1 = "Projects" ∨ g.1 = "Areas" ∨ g.1 = "Resources" ∨
        g.1 = "Archives" by simpa [paraSections] using h4) with h | h | h | h <;>
      rw [h] <;> decide
  have htotalInit : "total" ∈ statsInit.map Prod.fst := by decide
  refine ⟨?_, ?_, ?_⟩
  · rw [get_particle_stats,
      keys_statsFold _ statsInit hkeysInit htotalInit]
    rfl
  · rw [get_particle_stats, total_statsFold _ hgne statsInit]
    have hsnd : (groupBySection (db.filter (fun r => r.user == u))).map
        Prod.snd =
        (dedupFirst ((db.filter (fun r => r.user == u)).map (fun r => r.sect))).map
          (fun s => ((db.filter (fun r => r.user == u)).map
            (fun r => r.sect)).count s) := by
      rw [groupBySection, List.map_map]
      apply List.map_congr_left
      intro s _
      show ((db.filter (fun r => r.user == u)).filter
          (fun r => r.sect == s)).length = _
      rw [← List.countP_eq_length_filter, List.count_eq_countP,
        List.countP_map]
      rfl
    rw [hsnd, sum_count_dedupFirst, List.length_map,
      show dictGetD statsInit "total" = 0 from rfl, Nat.zero_add]
  · intro s hs
    by_cases hsin : s ∈ (groupBySection (db.filter (fun r => r.user == u))).map
        Prod.fst
    · obtain ⟨g, hg, hgs⟩ := List.mem_map.mp hsin
      obtain ⟨s2, hs2, hfs2⟩ := List.mem_map.mp hg
      have hs2s : s2 = s := by rw [← hgs, ← hfs2]
      rw [hs2s] at hfs2
      rw [← hfs2] at hg
      rw [get_particle_stats,
        statsFold_hit _ hgnodup hg (hne_total s hs) statsInit]
      rw [List.filter_filter, ← List.countP_eq_length_filter,
        ← List.countP_eq_length_filter]
      apply List.countP_congr
      intro r _
      constructor
      · intro hb
        simp only [Bool.and_eq_true] at hb ⊢
        exact ⟨hb.2, hb.1⟩
      · intro hb
        simp only [Bool.and_eq_true] at hb ⊢
        exact ⟨hb.2, hb.1⟩
    · have hother : ∀ g ∈ groupBySection (db.filter (fun r => r.user == u)),
          g.1 ≠ s := by
        intro g hg hgs
        exact hsin (hgs ▸ List.mem_map_of_mem Prod.fst hg)
      rw [get_particle_stats,
        statsFold_other _ hother (hne_total s hs) statsInit]
      have hrhs : db.filter (fun r => r.user == u && r.sect == s) = [] := by
        rw [List.filter_eq_nil_iff]
        intro a ha
        simp only [Bool.and_eq_true, beq_iff_eq, not_and]
        intro hau has
        apply hsin
        rw [gkeys]
        apply (mem_dedupFirst s _).mpr
        apply List.mem_map.mpr
        exact ⟨a, List.mem_filter.mpr ⟨ha, by simp [hau]⟩, has⟩
      rw [hrhs]
      exact hzeroInit s hs

/-- Witness for C7: stats for `alice` (two particles) and a check that a
section with no particles reads back zero. -/
theorem get_particle_stats_correct_witness :
    (∀ r ∈ dbAB, r.sect ∈ paraSections)
    ∧ (get_particle_stats dbAB "alice").map Prod.fst =
        ["Projects", "Areas", "Resources", "Archives", "total"]
    ∧ dictGetD (get_particle_stats dbAB "alice") "total" =
        (dbAB.filter (fun r => r.user == "alice")).length
    ∧ ∀ s ∈ paraSections,
        dictGetD (get_particle_stats dbAB "alice") s =
          (dbAB.filter (fun r => r.user == "alice" && r.sect == s)).length := by
  have h := get_particle_stats_correct dbAB "alice" (by decide)
  exact ⟨by decide, h.1, h.2.1, h.2.2⟩

end PIM
